import Mathlib

/-!
Shallow embedding of the glockmon lock-monitoring core
(`monitor.go`, `monitored_mutex.go`, `stacktrace.go`).

Modelling conventions:
* Go `time.Duration` (an `int64` count of nanoseconds) and `time.Time` are
  modelled as `Int`; the `TotalWait` accumulation in `Add` — the one place
  where `int64` overflow is reachable — wraps through `wrap64`, mirroring
  Go's two's-complement addition, so every stored duration stays in
  `[-2^63, 2^63)`.  Go's truncated integer division on durations is
  `Int.tdiv`.
* Go maps are modelled as functions into `Option`; map deletion and insertion
  are pointwise updates, and the "copy" performed by `Snapshot`,
  `GetStackCache` and `GetCategoryStats` is the identity on this functional
  view.
* The hash `hashStack` is `xxhash.Sum64String`, an external dependency: a
  deterministic 64-bit digest with no collision detection.  It is modelled as
  an explicit parameter `hash : String → Nat` of every operation that the
  source routes through `hashStack`, so every theorem quantifies over the
  digest actually in use.
* The `runtime.Stack` primitive is modelled by its contract: given a buffer of
  `size` bytes and a current stack whose text is `stack`, it writes
  `min stack.length size` bytes of that text and returns that count.
* `nil` pointer dereference (a Go panic) is modelled by `Option` results.
-/

/-- `LockInfo` from monitor.go: one captured long-lock occurrence. -/
structure LockInfo where
  timestamp : Int
  wait : Int
  stack : String
  category : String
deriving DecidableEq

/-- `CategoryStats` from monitor.go: per-category cumulative statistics. -/
structure CategoryStats where
  count : Int
  totalWait : Int
  averageWait : Int
deriving DecidableEq

/-- The `Monitor` struct from monitor.go.  The `sync.Mutex` field serializes
access and is not part of the sequential state; the three maps and the two
configuration fields are. -/
structure Monitor where
  longLocks : Nat → Option LockInfo
  stackCache : Nat → Option String
  keepRecords : Bool
  defaultCategory : String
  categoryStats : String → Option CategoryStats

/-- The fields of `config.MonitorConfig` consumed by the core (the HTTP
address and endpoint paths only feed the out-of-scope HTTP layer). -/
structure MonitorConfig where
  keepRecords : Bool
  defaultCategory : String

/-- `NewMonitor` from monitor.go, restricted to the in-scope state (the HTTP
server it also starts is out of scope).  All three maps start empty. -/
def NewMonitor (cfg : MonitorConfig) : Monitor where
  longLocks := fun _ => none
  stackCache := fun _ => none
  categoryStats := fun _ => none
  keepRecords := cfg.keepRecords
  defaultCategory := cfg.defaultCategory

/-- `2 ^ 63`, the magnitude bound of Go's `int64`. -/
def twoPow63 : Int := 9223372036854775808

/-- Reduction of an integer into the `int64` range `[-2^63, 2^63)`: the value
a Go `int64` holds after a possibly overflowing (wrapping) operation. -/
def wrap64 (x : Int) : Int :=
  (x + twoPow63) % (2 * twoPow63) - twoPow63

/-- `Monitor.Add` from monitor.go: upsert the record and the cache entry at
`hash stack`, then bump (or lazily create) the category's stats, recomputing
`AverageWait = TotalWait / Count` with truncated integer division.
`stats.TotalWait += info.Wait` is `int64` addition, which wraps on overflow;
the subsequent division by `Count ≥ 1` cannot overflow. -/
def Monitor.Add (hash : String → Nat) (m : Monitor) (stack : String)
    (info : LockInfo) : Monitor :=
  let h := hash stack
  let info' : LockInfo := { info with stack := stack }
  let prev : CategoryStats := (m.categoryStats info.category).getD ⟨0, 0, 0⟩
  let stats : CategoryStats :=
    { count := prev.count + 1
      totalWait := wrap64 (prev.totalWait + info.wait)
      averageWait := Int.tdiv (wrap64 (prev.totalWait + info.wait)) (prev.count + 1) }
  { m with
    longLocks := fun k => if k = h then some info' else m.longLocks k
    stackCache := fun k => if k = h then some stack else m.stackCache k
    categoryStats := fun c =>
      if c = info.category then some stats else m.categoryStats c }

/-- `Monitor.RemoveByStack` from monitor.go: delete the record and the cache
entry at `hash stack` (Go `delete` is a no-op on an absent key). -/
def Monitor.RemoveByStack (hash : String → Nat) (m : Monitor)
    (stack : String) : Monitor :=
  let h := hash stack
  { m with
    longLocks := fun k => if k = h then none else m.longLocks k
    stackCache := fun k => if k = h then none else m.stackCache k }

/-- `Monitor.Snapshot` from monitor.go: an independent copy of the current
records, which on the functional map view is the map itself. -/
def Monitor.Snapshot (m : Monitor) : Nat → Option LockInfo :=
  fun k => m.longLocks k

/-- `Monitor.GetStack` from monitor.go: point lookup in the stack cache,
returning the Go comma-ok pair (zero value `""` on a miss). -/
def Monitor.GetStack (m : Monitor) (h : Nat) : String × Bool :=
  match m.stackCache h with
  | some s => (s, true)
  | none => ("", false)

/-- `Monitor.GetStackCache` from monitor.go: a copy of the full cache. -/
def Monitor.GetStackCache (m : Monitor) : Nat → Option String :=
  fun k => m.stackCache k

/-- `Monitor.GetCategoryStats` from monitor.go: a copy of the cumulative
per-category statistics (values are copied out of their pointers). -/
def Monitor.GetCategoryStats (m : Monitor) : String → Option CategoryStats :=
  fun c => m.categoryStats c

/-- One externally issued Monitor mutation, for reasoning about arbitrary
operation sequences. -/
inductive MonOp where
  | add (stack : String) (info : LockInfo)
  | removeByStack (stack : String)

/-- Apply one Monitor mutation. -/
def applyOp (hash : String → Nat) (m : Monitor) : MonOp → Monitor
  | .add stack info => Monitor.Add hash m stack info
  | .removeByStack stack => Monitor.RemoveByStack hash m stack

/-- Apply a sequence of Monitor mutations, oldest first. -/
def applyOps (hash : String → Nat) (m : Monitor) (ops : List MonOp) : Monitor :=
  ops.foldl (applyOp hash) m

/-- The `Count` field of a category's stats, `0` when the category has never
been seen (matching the lazily-created-entry semantics). -/
def statsCount : Option CategoryStats → Int
  | none => 0
  | some s => s.count

/-- The `TotalWait` field of a category's stats, `0` when absent. -/
def statsTotalWait : Option CategoryStats → Int
  | none => 0
  | some s => s.totalWait

/-- Number of `Add` calls in `ops` whose event carries category `C`. -/
def countAdds (C : String) : List MonOp → Int
  | [] => 0
  | .add _ info :: rest => (if info.category = C then 1 else 0) + countAdds C rest
  | .removeByStack _ :: rest => countAdds C rest

/-- Sum of the waits of the `Add` calls in `ops` whose event carries
category `C`. -/
def waitSum (C : String) : List MonOp → Int
  | [] => 0
  | .add _ info :: rest => (if info.category = C then info.wait else 0) + waitSum C rest
  | .removeByStack _ :: rest => waitSum C rest

/-- The wait carried by an operation (`0` for an eviction). -/
def opWait : MonOp → Int
  | .add _ info => info.wait
  | .removeByStack _ => 0

/-- Every `Add` in the list carries a non-negative wait. -/
def nonnegWaits (ops : List MonOp) : Prop :=
  ∀ op ∈ ops, 0 ≤ opWait op

/-- The `MonitoredMutex` struct from monitored_mutex.go.  The wrapped
primitive `sync.Mutex` is modelled by the boolean `locked`. -/
structure MonitoredMutex where
  locked : Bool
  threshold : Int
  monitor : Option Monitor
  lockedKey : Nat
  category : String

/-- `New` from monitored_mutex.go.  It reads `monitor.defaultCategory`
unconditionally, so a `nil` monitor is a panic, modelled as `none`. -/
def New (monitor : Option Monitor) (threshold : Int) :
    Option MonitoredMutex :=
  match monitor with
  | none => none
  | some mon =>
    some { locked := false
           threshold := threshold
           monitor := monitor
           lockedKey := 0
           category := mon.defaultCategory }

/-- `MonitoredMutex.SetCategory` from monitored_mutex.go.  The empty-string
branch dereferences `m.monitor`, so it panics (`none`) when the monitor
reference is `nil`. -/
def MonitoredMutex.SetCategory (m : MonitoredMutex) (category : String) :
    Option MonitoredMutex :=
  if category = "" then
    match m.monitor with
    | none => none
    | some mon => some { m with category := mon.defaultCategory }
  else
    some { m with category := category }

/-- `MonitoredMutex.Lock` from monitored_mutex.go.  The measured wait, the
captured stack text and the acquisition instant are environment inputs.  When
the wait exceeds the threshold and a monitor is attached, the hash of the
stack is remembered in `lockedKey` and the event is reported via `Add`;
otherwise `lockedKey` is cleared to `0`.  The primitive lock is acquired in
every case. -/
def MonitoredMutex.Lock (hash : String → Nat) (m : MonitoredMutex)
    (wait : Int) (stack : String) (now : Int) : MonitoredMutex :=
  match m.monitor with
  | some mon =>
    if m.threshold < wait then
      { m with
        locked := true
        lockedKey := hash stack
        monitor := some (Monitor.Add hash mon stack
          { timestamp := now, wait := wait, stack := stack,
            category := m.category }) }
    else
      { m with locked := true, lockedKey := 0 }
  | none => { m with locked := true, lockedKey := 0 }

/-- `MonitoredMutex.Unlock` from monitored_mutex.go.  When a monitor is
attached, it does not keep records, and `lockedKey` is non-zero, the cached
stack text for `lockedKey` is looked up and, when found, `RemoveByStack`
evicts it; `lockedKey` is cleared either way.  The primitive lock is released
in every case. -/
def MonitoredMutex.Unlock (hash : String → Nat) (m : MonitoredMutex) :
    MonitoredMutex :=
  match m.monitor with
  | some mon =>
    if mon.keepRecords = false ∧ m.lockedKey ≠ 0 then
      let res := Monitor.GetStack mon m.lockedKey
      let mon' := if res.2 then Monitor.RemoveByStack hash mon res.1 else mon
      { m with monitor := some mon', lockedKey := 0, locked := false }
    else
      { m with locked := false }
  | none => { m with locked := false }

/-- The loop of `getStackTrace` from stacktrace.go, with the current buffer
`size` as the loop variable.  `runtime.Stack` writes
`n = min stack.length size` bytes of the stack text into the buffer; `n <
size` means the stack fitted untruncated and `string(buf[:n])` is returned.
The `1 ≤ size` guard only excludes `size = 0`, unreachable from the entry
point `size = 1024`, to make the doubling loop well founded. -/
def stackLoop (stack : String) (size : Nat) : String :=
  if 1 ≤ size ∧ size ≤ 65536 then
    let n := min stack.data.length size
    if n < size then String.mk (stack.data.take n)
    else stackLoop stack (size * 2)
  else "stack trace too deep"
termination_by 65537 - size
decreasing_by
  rename_i h _
  omega

/-- `getStackTrace` from stacktrace.go: the doubling loop entered at the
1024-byte baseline, bounded by 64 times the baseline. -/
def getStackTrace (stack : String) : String :=
  stackLoop stack 1024

/-! ## Helper lemmas -/

theorem Add_categoryStats_count (hash : String → Nat) (m : Monitor)
    (stack : String) (info : LockInfo) (C : String) :
    statsCount ((Monitor.Add hash m stack info).categoryStats C) =
      statsCount (m.categoryStats C) + (if info.category = C then 1 else 0) := by
  simp only [Monitor.Add]
  by_cases hC : C = info.category
  · subst hC
    cases h : m.categoryStats info.category <;> simp [h, statsCount]
  · have hC' : ¬ info.category = C := fun h => hC h.symm
    simp [hC, hC']

theorem Add_categoryStats_totalWait (hash : String → Nat) (m : Monitor)
    (stack : String) (info : LockInfo) (C : String) :
    statsTotalWait ((Monitor.Add hash m stack info).categoryStats C) =
      if info.category = C
      then wrap64 (statsTotalWait (m.categoryStats C) + info.wait)
      else statsTotalWait (m.categoryStats C) := by
  simp only [Monitor.Add]
  by_cases hC : C = info.category
  · subst hC
    cases h : m.categoryStats info.category <;> simp [h, statsTotalWait]
  · have hC' : ¬ info.category = C := fun h => hC h.symm
    simp [hC, hC']

theorem wrap64_eq_self (x : Int) (h1 : -twoPow63 ≤ x) (h2 : x < twoPow63) :
    wrap64 x = x := by
  simp only [wrap64, twoPow63] at h1 h2 ⊢
  omega

theorem RemoveByStack_categoryStats (hash : String → Nat) (m : Monitor)
    (stack : String) :
    (Monitor.RemoveByStack hash m stack).categoryStats = m.categoryStats := rfl

theorem applyOps_statsCount (hash : String → Nat) (C : String)
    (ops : List MonOp) :
    ∀ m : Monitor,
    statsCount ((applyOps hash m ops).categoryStats C) =
      statsCount (m.categoryStats C) + countAdds C ops := by
  induction ops with
  | nil => intro m; simp [applyOps, countAdds]
  | cons op rest ih =>
    intro m
    cases op with
    | add stack info =>
      have h1 := Add_categoryStats_count hash m stack info C
      simp only [applyOps, List.foldl_cons, applyOp, countAdds] at ih ⊢
      rw [ih, h1]; ring
    | removeByStack stack =>
      simp only [applyOps, List.foldl_cons, applyOp, countAdds] at ih ⊢
      rw [ih, RemoveByStack_categoryStats]

theorem waitSum_append (C : String) (ops extra : List MonOp) :
    waitSum C (ops ++ extra) = waitSum C ops + waitSum C extra := by
  induction ops with
  | nil => simp [waitSum]
  | cons op rest ih =>
    have hcons : (op :: rest) ++ extra = op :: (rest ++ extra) := rfl
    rw [hcons]
    cases op with
    | add stack info =>
      simp only [waitSum]
      rw [ih]
      ring
    | removeByStack stack =>
      simp only [waitSum]
      exact ih

theorem countAdds_nonneg (C : String) (ops : List MonOp) :
    0 ≤ countAdds C ops := by
  induction ops with
  | nil => simp [countAdds]
  | cons op rest ih =>
    cases op with
    | add stack info =>
      simp only [countAdds]
      by_cases h : info.category = C <;> simp [h] <;> omega
    | removeByStack stack => simpa [countAdds] using ih

theorem waitSum_nonneg (C : String) (ops : List MonOp)
    (h : nonnegWaits ops) : 0 ≤ waitSum C ops := by
  induction ops with
  | nil => simp [waitSum]
  | cons op rest ih =>
    have hop := h op (List.mem_cons_self op rest)
    have hrest : nonnegWaits rest := fun o ho => h o (List.mem_cons_of_mem op ho)
    cases op with
    | add stack info =>
      simp only [opWait] at hop
      have := ih hrest
      simp only [waitSum]
      by_cases hc : info.category = C <;> simp [hc] <;> omega
    | removeByStack stack => simpa [waitSum] using ih hrest

/-- As long as every wait is non-negative and the running per-category total
stays below `2 ^ 63`, the wrapping `int64` accumulator agrees with the exact
sum of the waits. -/
theorem applyOps_statsTotalWait_bounded (hash : String → Nat) (C : String) :
    ∀ (tr : List MonOp) (m : Monitor),
      nonnegWaits tr →
      0 ≤ statsTotalWait (m.categoryStats C) →
      statsTotalWait (m.categoryStats C) + waitSum C tr < twoPow63 →
      statsTotalWait ((applyOps hash m tr).categoryStats C)
        = statsTotalWait (m.categoryStats C) + waitSum C tr := by
  intro tr
  induction tr with
  | nil => intro m _ _ _; simp [applyOps, waitSum]
  | cons op rest ih =>
    intro m hnn h0 hbound
    have hop := hnn op (List.mem_cons_self op rest)
    have hrest : nonnegWaits rest := fun o ho => hnn o (List.mem_cons_of_mem op ho)
    have hwsrest : 0 ≤ waitSum C rest := waitSum_nonneg C rest hrest
    have htp : twoPow63 = 9223372036854775808 := rfl
    cases op with
    | add stack info =>
      simp only [opWait] at hop
      have hstep := Add_categoryStats_totalWait hash m stack info C
      simp only [applyOps, List.foldl_cons, applyOp] at ih ⊢
      by_cases hc : info.category = C
      · rw [if_pos hc] at hstep
        simp only [waitSum, hc, eq_self_iff_true, if_true] at hbound ⊢
        have hin : wrap64 (statsTotalWait (m.categoryStats C) + info.wait)
            = statsTotalWait (m.categoryStats C) + info.wait :=
          wrap64_eq_self _ (by omega) (by omega)
        have h0' : 0 ≤ statsTotalWait ((Monitor.Add hash m stack info).categoryStats C) := by
          rw [hstep, hin]; omega
        have hb' : statsTotalWait ((Monitor.Add hash m stack info).categoryStats C)
            + waitSum C rest < twoPow63 := by
          rw [hstep, hin]; omega
        rw [ih (Monitor.Add hash m stack info) hrest h0' hb', hstep, hin]
        ring
      · rw [if_neg hc] at hstep
        simp only [waitSum] at hbound ⊢
        rw [if_neg hc] at hbound ⊢
        have h0' : 0 ≤ statsTotalWait ((Monitor.Add hash m stack info).categoryStats C) := by
          rw [hstep]; omega
        have hb' : statsTotalWait ((Monitor.Add hash m stack info).categoryStats C)
            + waitSum C rest < twoPow63 := by
          rw [hstep]; omega
        rw [ih (Monitor.Add hash m stack info) hrest h0' hb', hstep]
        ring
    | removeByStack stack =>
      simp only [applyOps, List.foldl_cons, applyOp] at ih ⊢
      simp only [waitSum] at hbound ⊢
      have hcs : (Monitor.RemoveByStack hash m stack).categoryStats = m.categoryStats := rfl
      rw [ih (Monitor.RemoveByStack hash m stack) hrest (by rw [hcs]; exact h0)
        (by rw [hcs]; exact hbound), hcs]

theorem applyOps_append (hash : String → Nat) (m : Monitor)
    (ops extra : List MonOp) :
    applyOps hash m (ops ++ extra) = applyOps hash (applyOps hash m ops) extra := by
  simp [applyOps, List.foldl_append]

/-- `op` neither evicts the cache slot of `s` nor overwrites it with a
different stack text: any `Add` whose stack collides with `s` uses `s` itself,
and no `RemoveByStack` collides with `s`. -/
def preservesKey (hash : String → Nat) (s : String) : MonOp → Prop
  | .add t _ => hash t = hash s → t = s
  | .removeByStack t => hash t ≠ hash s

theorem stackCache_stable (hash : String → Nat) (s : String)
    (ops : List MonOp) :
    ∀ m : Monitor, m.stackCache (hash s) = some s →
      (∀ op ∈ ops, preservesKey hash s op) →
      (applyOps hash m ops).stackCache (hash s) = some s := by
  induction ops with
  | nil => intro m hm _; simpa [applyOps] using hm
  | cons op rest ih =>
    intro m hm hops
    have hop := hops op (List.mem_cons_self op rest)
    have hrest : ∀ o ∈ rest, preservesKey hash s o :=
      fun o ho => hops o (List.mem_cons_of_mem op ho)
    cases op with
    | add t info =>
      simp only [applyOps, List.foldl_cons, applyOp] at ih ⊢
      refine ih (Monitor.Add hash m t info) ?_ hrest
      simp only [Monitor.Add]
      by_cases hc : hash s = hash t
      · have : t = s := hop hc.symm
        subst this
        simp
      · simp [hc, hm]
    | removeByStack t =>
      simp only [applyOps, List.foldl_cons, applyOp] at ih ⊢
      refine ih (Monitor.RemoveByStack hash m t) ?_ hrest
      simp only [Monitor.RemoveByStack, preservesKey] at hop ⊢
      have hc : ¬ hash s = hash t := fun h => hop h.symm
      simp [hc, hm]

/-- The invariant behind C4: every materialized category entry satisfies the
average-wait equation. -/
def avgOk (m : Monitor) : Prop :=
  ∀ C s, m.categoryStats C = some s →
    s.averageWait = Int.tdiv s.totalWait s.count

theorem avgOk_Add (hash : String → Nat) (m : Monitor) (stack : String)
    (info : LockInfo) (h : avgOk m) : avgOk (Monitor.Add hash m stack info) := by
  intro C s hs
  simp only [Monitor.Add] at hs
  by_cases hC : C = info.category
  · rw [if_pos hC] at hs
    cases hs
    rfl
  · rw [if_neg hC] at hs
    exact h C s hs

theorem avgOk_applyOps (hash : String → Nat) (ops : List MonOp) :
    ∀ m : Monitor, avgOk m → avgOk (applyOps hash m ops) := by
  induction ops with
  | nil => intro m hm; simpa [applyOps] using hm
  | cons op rest ih =>
    intro m hm
    cases op with
    | add stack info =>
      simp only [applyOps, List.foldl_cons, applyOp] at ih ⊢
      exact ih _ (avgOk_Add hash m stack info hm)
    | removeByStack stack =>
      simp only [applyOps, List.foldl_cons, applyOp] at ih ⊢
      refine ih _ ?_
      intro C s hs
      rw [RemoveByStack_categoryStats] at hs
      exact hm C s hs

/-- The invariant behind C6: the record map and the stack cache always hold
exactly the same keys. -/
def syncKeys (m : Monitor) : Prop :=
  ∀ k, (m.longLocks k).isSome = (m.stackCache k).isSome

theorem syncKeys_applyOps (hash : String → Nat) (ops : List MonOp) :
    ∀ m : Monitor, syncKeys m → syncKeys (applyOps hash m ops) := by
  induction ops with
  | nil => intro m hm; simpa [applyOps] using hm
  | cons op rest ih =>
    intro m hm
    cases op with
    | add stack info =>
      simp only [applyOps, List.foldl_cons, applyOp] at ih ⊢
      refine ih _ ?_
      intro k
      simp only [Monitor.Add]
      by_cases hk : k = hash stack <;> simp [hk, hm k]
    | removeByStack stack =>
      simp only [applyOps, List.foldl_cons, applyOp] at ih ⊢
      refine ih _ ?_
      intro k
      simp only [Monitor.RemoveByStack]
      by_cases hk : k = hash stack <;> simp [hk, hm k]

theorem stackLoop_fits (stack : String) (size : Nat) (h1 : 1 ≤ size)
    (h2 : size ≤ 65536) (hlen : stack.data.length < size) :
    stackLoop stack size = stack := by
  obtain ⟨d⟩ := stack
  rw [stackLoop]
  have hmin : min d.length size = d.length := Nat.min_eq_left (le_of_lt hlen)
  simp only [h1, h2, and_self, if_true, hmin]
  rw [if_pos hlen]
  simp

theorem stackLoop_deep (stack : String) (hlen : 65536 ≤ stack.data.length) :
    ∀ (d size : Nat), 65537 - size ≤ d → 1 ≤ size →
      stackLoop stack size = "stack trace too deep" := by
  intro d
  induction d with
  | zero =>
    intro size hd h1
    rw [stackLoop]
    have : ¬ (1 ≤ size ∧ size ≤ 65536) := by omega
    rw [if_neg this]
  | succ d ih =>
    intro size hd h1
    rw [stackLoop]
    by_cases hle : size ≤ 65536
    · have hmin : min stack.data.length size = size :=
        Nat.min_eq_right (le_trans hle hlen)
      simp only [h1, hle, and_self, if_true, hmin, lt_self_iff_false, if_false]
      exact ih (size * 2) (by omega) (by omega)
    · have : ¬ (1 ≤ size ∧ size ≤ 65536) := by simp [hle]
      rw [if_neg this]

theorem stackLoop_fits_chain (stack : String) (hlen : stack.data.length < 65536) :
    ∀ k : Nat, k ≤ 6 → stackLoop stack (2 ^ (16 - k)) = stack := by
  intro k
  induction k with
  | zero =>
    intro _
    exact stackLoop_fits stack (2 ^ 16) (by norm_num) (by norm_num)
      (by simpa using hlen)
  | succ k ih =>
    intro hk
    by_cases hfit : stack.data.length < 2 ^ (16 - (k + 1))
    · refine stackLoop_fits stack _ (Nat.one_le_two_pow) ?_ hfit
      calc (2 : Nat) ^ (16 - (k + 1)) ≤ 2 ^ 16 :=
            Nat.pow_le_pow_right (by norm_num) (by omega)
        _ = 65536 := by norm_num
    · rw [stackLoop]
      have hle : (2 : Nat) ^ (16 - (k + 1)) ≤ 65536 := by
        calc (2 : Nat) ^ (16 - (k + 1)) ≤ 2 ^ 16 :=
              Nat.pow_le_pow_right (by norm_num) (by omega)
          _ = 65536 := by norm_num
      have hmin : min stack.data.length (2 ^ (16 - (k + 1))) = 2 ^ (16 - (k + 1)) :=
        Nat.min_eq_right (Nat.le_of_not_lt hfit)
      simp only [Nat.one_le_two_pow, hle, and_self, if_true, hmin,
        lt_self_iff_false, if_false]
      have h2 : (2 : Nat) ^ (16 - (k + 1)) * 2 = 2 ^ (16 - k) := by
        rw [mul_comm, ← pow_succ']
        congr 1
        omega
      rw [h2]
      exact ih (by omega)

/-! ## Concrete fixtures used by witnesses and counterexamples

`hash0` is a degenerate but legal 64-bit digest (the spec fixes no particular
digest and accepts collisions); it maps every stack text to `0`, which makes
hash collisions and the zero hash value concrete. -/

def hash0 : String → Nat := fun _ => 0

def cfg0 : MonitorConfig := { keepRecords := false, defaultCategory := "default" }

def mux0 : MonitoredMutex :=
  { locked := false, threshold := 0, monitor := none, lockedKey := 0,
    category := "c" }

def mux1 : MonitoredMutex :=
  { locked := true, threshold := 0, monitor := some (NewMonitor cfg0),
    lockedKey := 1, category := "c" }

def mux2 : MonitoredMutex :=
  { locked := false, threshold := 0, monitor := some (NewMonitor cfg0),
    lockedKey := 0, category := "c" }

/-! ## Claims -/

/-- Claim C1, counterexample to the claim as stated: `TotalWait` is not
monotonically non-decreasing across every operation, because `Add` accepts an
event with a negative `Wait` (`time.Duration` is signed) and adds it to the
accumulator.  One `Add` with `Wait = -1` strictly decreases
`categoryStats["X"].TotalWait`. -/
theorem c1_totalWait_not_monotone_cex :
    statsTotalWait ((applyOps hash0 (NewMonitor cfg0)
        [MonOp.add "s" { timestamp := 0, wait := -1, stack := "", category := "X" }]).categoryStats "X")
      < statsTotalWait ((applyOps hash0 (NewMonitor cfg0) ([] : List MonOp)).categoryStats "X") := by
  decide

/-- The wrapping of `TotalWait` is observable at the model level: two `Add`
calls with `Wait = 2 ^ 62` (non-negative `int64` values) drive `TotalWait`
from `2 ^ 62` to `-2 ^ 63`, just as Go's `int64` addition does. -/
theorem totalWait_wraps_on_overflow :
    statsTotalWait ((applyOps hash0 (NewMonitor cfg0)
        [MonOp.add "s" { timestamp := 0, wait := 4611686018427387904, stack := "", category := "X" },
         MonOp.add "s" { timestamp := 1, wait := 4611686018427387904, stack := "", category := "X" }]).categoryStats "X")
      = -9223372036854775808 := by
  decide

/-- Claim C1 (amended): for every category `C`, after any sequence of `Add`
and `RemoveByStack` calls, `categoryStats[C].Count` equals the total number of
`Add` calls issued with `info.Category = C`; `Count` is monotonically
non-decreasing across every operation, `TotalWait` is monotonically
non-decreasing across every operation provided every `Add` carries a
non-negative `Wait` and the accumulated wait of the category stays below
`2 ^ 63` (no `int64` overflow), and `RemoveByStack` never modifies
`categoryStats`. -/
theorem c1_category_stats_accumulate (hash : String → Nat)
    (cfg : MonitorConfig) (ops extra : List MonOp) (C : String) :
    statsCount ((applyOps hash (NewMonitor cfg) ops).categoryStats C) = countAdds C ops
    ∧ statsCount ((applyOps hash (NewMonitor cfg) ops).categoryStats C)
        ≤ statsCount ((applyOps hash (NewMonitor cfg) (ops ++ extra)).categoryStats C)
    ∧ (nonnegWaits (ops ++ extra) → waitSum C (ops ++ extra) < twoPow63 →
        statsTotalWait ((applyOps hash (NewMonitor cfg) ops).categoryStats C)
          ≤ statsTotalWait ((applyOps hash (NewMonitor cfg) (ops ++ extra)).categoryStats C))
    ∧ (∀ (m : Monitor) (s : String),
        (Monitor.RemoveByStack hash m s).categoryStats = m.categoryStats) := by
  have hbase : statsCount ((NewMonitor cfg).categoryStats C) = 0 := rfl
  refine ⟨?_, ?_, ?_, fun m s => RemoveByStack_categoryStats hash m s⟩
  · rw [applyOps_statsCount, hbase]
    omega
  · rw [applyOps_append, applyOps_statsCount hash C extra]
    have := countAdds_nonneg C extra
    omega
  · intro hnn hbound
    have hnn1 : nonnegWaits ops := fun o ho => hnn o (List.mem_append_left extra ho)
    have hnn2 : nonnegWaits extra := fun o ho => hnn o (List.mem_append_right ops ho)
    have hws1 : 0 ≤ waitSum C ops := waitSum_nonneg C ops hnn1
    have hws2 : 0 ≤ waitSum C extra := waitSum_nonneg C extra hnn2
    have happ := waitSum_append C ops extra
    have hbase' : statsTotalWait ((NewMonitor cfg).categoryStats C) = 0 := rfl
    have h1 := applyOps_statsTotalWait_bounded hash C ops (NewMonitor cfg) hnn1
      (by rw [hbase']) (by rw [hbase']; omega)
    have h2 := applyOps_statsTotalWait_bounded hash C (ops ++ extra) (NewMonitor cfg)
      hnn (by rw [hbase']) (by rw [hbase']; omega)
    rw [h1, h2, hbase', happ]
    omega

/-- Witness for the amended C1 at a concrete input. -/
theorem c1_category_stats_accumulate_witness :
    nonnegWaits (([] : List MonOp)
        ++ [MonOp.add "s" { timestamp := 0, wait := 5, stack := "", category := "X" }])
    ∧ waitSum "X" (([] : List MonOp)
        ++ [MonOp.add "s" { timestamp := 0, wait := 5, stack := "", category := "X" }]) < twoPow63
    ∧ statsCount ((applyOps hash0 (NewMonitor cfg0)
        [MonOp.add "s" { timestamp := 0, wait := 5, stack := "", category := "X" }]).categoryStats "X")
        = countAdds "X" [MonOp.add "s" { timestamp := 0, wait := 5, stack := "", category := "X" }]
    ∧ statsTotalWait ((applyOps hash0 (NewMonitor cfg0) ([] : List MonOp)).categoryStats "X")
        ≤ statsTotalWait ((applyOps hash0 (NewMonitor cfg0)
            (([] : List MonOp) ++ [MonOp.add "s" { timestamp := 0, wait := 5, stack := "", category := "X" }])).categoryStats "X") := by
  have hnn : nonnegWaits (([] : List MonOp)
      ++ [MonOp.add "s" { timestamp := 0, wait := 5, stack := "", category := "X" }]) := by
    intro op hop
    rw [List.nil_append, List.mem_singleton] at hop
    subst hop
    decide
  have hbound : waitSum "X" (([] : List MonOp)
      ++ [MonOp.add "s" { timestamp := 0, wait := 5, stack := "", category := "X" }]) < twoPow63 := by
    decide
  exact ⟨hnn, hbound,
    (c1_category_stats_accumulate hash0 cfg0
      [MonOp.add "s" { timestamp := 0, wait := 5, stack := "", category := "X" }] [] "X").1,
    (c1_category_stats_accumulate hash0 cfg0 []
      [MonOp.add "s" { timestamp := 0, wait := 5, stack := "", category := "X" }] "X").2.2.1 hnn hbound⟩

/-- Claim C2, counterexample to the claim as stated: under a hash collision
(two different stack texts with the same digest, which the design accepts), a
later `Add` of the colliding text overwrites the cache slot, so `GetStack`
returns the collider, not the original text, even though no `RemoveByStack`
was ever issued. -/
theorem c2_getStack_collision_cex :
    Monitor.GetStack
        (applyOps hash0
          (Monitor.Add hash0 (NewMonitor cfg0) "a"
            { timestamp := 0, wait := 0, stack := "", category := "X" })
          [MonOp.add "b" { timestamp := 0, wait := 0, stack := "", category := "X" }])
        (hash0 "a") = ("b", true)
    ∧ (("b", true) : String × Bool) ≠ ("a", true) := by
  decide

/-- Claim C2 (amended): after `Add(s, e)`, and as long as the subsequent
operations contain no `RemoveByStack` whose argument hashes to `hashStack s`
and no `Add` of a different stack text that hashes to `hashStack s` (a hash
collision), `GetStack (hashStack s)` returns exactly `(s, true)`. -/
theorem c2_getStack_stable_until_remove (hash : String → Nat) (m : Monitor)
    (s : String) (e : LockInfo) (ops : List MonOp)
    (hops : ∀ op ∈ ops, preservesKey hash s op) :
    Monitor.GetStack (applyOps hash (Monitor.Add hash m s e) ops) (hash s)
      = (s, true) := by
  have hbase : (Monitor.Add hash m s e).stackCache (hash s) = some s := by
    simp [Monitor.Add]
  have hstable := stackCache_stable hash s ops (Monitor.Add hash m s e) hbase hops
  simp [Monitor.GetStack, hstable]

/-- Witness for the amended C2 at a concrete input. -/
theorem c2_getStack_stable_until_remove_witness :
    (∀ op ∈ ([] : List MonOp), preservesKey hash0 "a" op)
    ∧ Monitor.GetStack
        (applyOps hash0
          (Monitor.Add hash0 (NewMonitor cfg0) "a"
            { timestamp := 0, wait := 0, stack := "", category := "X" })
          ([] : List MonOp))
        (hash0 "a") = ("a", true) := by
  have hops : ∀ op ∈ ([] : List MonOp), preservesKey hash0 "a" op :=
    fun op hop => absurd hop (List.not_mem_nil op)
  exact ⟨hops, c2_getStack_stable_until_remove hash0 (NewMonitor cfg0) "a" _ [] hops⟩

/-- Claim C3: after `RemoveByStack s`, the snapshot has no entry at
`hashStack s`, `GetStack (hashStack s)` reports absence as `("", false)`, the
category statistics are unchanged, and when `hashStack s` is absent from both
maps the whole state is unchanged. -/
theorem c3_removeByStack_frame (hash : String → Nat) (m : Monitor) (s : String) :
    Monitor.Snapshot (Monitor.RemoveByStack hash m s) (hash s) = none
    ∧ Monitor.GetStack (Monitor.RemoveByStack hash m s) (hash s) = ("", false)
    ∧ Monitor.GetCategoryStats (Monitor.RemoveByStack hash m s)
        = Monitor.GetCategoryStats m
    ∧ (m.longLocks (hash s) = none → m.stackCache (hash s) = none →
        Monitor.RemoveByStack hash m s = m) := by
  refine ⟨?_, ?_, rfl, ?_⟩
  · simp [Monitor.Snapshot, Monitor.RemoveByStack]
  · simp [Monitor.GetStack, Monitor.RemoveByStack]
  · intro h1 h2
    obtain ⟨ll, sc, kr, dc, cs⟩ := m
    simp only [Monitor.RemoveByStack, Monitor.mk.injEq]
    refine ⟨?_, ?_, trivial, trivial, trivial⟩ <;> funext k
    · by_cases hk : k = hash s
      · subst hk; simp only [if_pos rfl]; exact h1.symm
      · simp [hk]
    · by_cases hk : k = hash s
      · subst hk; simp only [if_pos rfl]; exact h2.symm
      · simp [hk]

/-- Witness for C3 at a concrete input. -/
theorem c3_removeByStack_frame_witness :
    (NewMonitor cfg0).longLocks (hash0 "a") = none
    ∧ (NewMonitor cfg0).stackCache (hash0 "a") = none
    ∧ Monitor.RemoveByStack hash0 (NewMonitor cfg0) "a" = NewMonitor cfg0 :=
  ⟨rfl, rfl, (c3_removeByStack_frame hash0 (NewMonitor cfg0) "a").2.2.2 rfl rfl⟩

/-- Claim C4: in every state reachable by `Add` and `RemoveByStack` from a
fresh monitor, every materialized category entry satisfies
`AverageWait = TotalWait / Count` under truncated integer division. -/
theorem c4_averageWait_invariant (hash : String → Nat) (cfg : MonitorConfig)
    (ops : List MonOp) (C : String) (s : CategoryStats)
    (h : (applyOps hash (NewMonitor cfg) ops).categoryStats C = some s) :
    s.averageWait = Int.tdiv s.totalWait s.count := by
  refine avgOk_applyOps hash ops (NewMonitor cfg) ?_ C s h
  intro C s hs
  simp [NewMonitor] at hs

/-- Witness for C4 at a concrete input. -/
theorem c4_averageWait_invariant_witness :
    (applyOps hash0 (NewMonitor cfg0)
        [MonOp.add "a" { timestamp := 0, wait := 5, stack := "", category := "X" }]).categoryStats "X"
      = some { count := 1, totalWait := 5, averageWait := 5 }
    ∧ ({ count := 1, totalWait := 5, averageWait := 5 } : CategoryStats).averageWait
        = Int.tdiv ({ count := 1, totalWait := 5, averageWait := 5 } : CategoryStats).totalWait
            ({ count := 1, totalWait := 5, averageWait := 5 } : CategoryStats).count :=
  ⟨by decide, c4_averageWait_invariant hash0 cfg0
    [MonOp.add "a" { timestamp := 0, wait := 5, stack := "", category := "X" }]
    "X" { count := 1, totalWait := 5, averageWait := 5 } (by decide)⟩

/-- Claim C5: two `Add` calls with the same stack text leave exactly one
record under that identity, equal to the later event (wholesale overwrite),
while the shared category's `Count` reaches `2`. -/
theorem c5_upsert_overwrites (hash : String → Nat) (cfg : MonitorConfig)
    (s : String) (e1 e2 : LockInfo) (hcat : e1.category = e2.category) :
    (∀ k, Monitor.Snapshot
        (Monitor.Add hash (Monitor.Add hash (NewMonitor cfg) s e1) s e2) k
      = if k = hash s then some { e2 with stack := s } else none)
    ∧ statsCount ((Monitor.Add hash (Monitor.Add hash (NewMonitor cfg) s e1) s e2).categoryStats
        e2.category) = 2 := by
  constructor
  · intro k
    by_cases hk : k = hash s <;>
      simp [Monitor.Snapshot, Monitor.Add, NewMonitor, hk]
  · obtain ⟨t1, w1, s1, c1⟩ := e1
    obtain ⟨t2, w2, s2, c2⟩ := e2
    replace hcat : c1 = c2 := hcat
    subst hcat
    simp [Monitor.Add, NewMonitor, statsCount]

/-- Witness for C5 at a concrete input. -/
theorem c5_upsert_overwrites_witness :
    ({ timestamp := 0, wait := 3, stack := "", category := "X" } : LockInfo).category
      = ({ timestamp := 1, wait := 7, stack := "", category := "X" } : LockInfo).category
    ∧ Monitor.Snapshot
        (Monitor.Add hash0
          (Monitor.Add hash0 (NewMonitor cfg0) "a"
            { timestamp := 0, wait := 3, stack := "", category := "X" })
          "a" { timestamp := 1, wait := 7, stack := "", category := "X" })
        (hash0 "a")
      = some { timestamp := 1, wait := 7, stack := "a", category := "X" }
    ∧ statsCount ((Monitor.Add hash0
        (Monitor.Add hash0 (NewMonitor cfg0) "a"
          { timestamp := 0, wait := 3, stack := "", category := "X" })
        "a" { timestamp := 1, wait := 7, stack := "", category := "X" }).categoryStats "X") = 2 := by
  refine ⟨rfl, ?_, (c5_upsert_overwrites hash0 cfg0 "a"
    { timestamp := 0, wait := 3, stack := "", category := "X" }
    { timestamp := 1, wait := 7, stack := "", category := "X" } rfl).2⟩
  have h := (c5_upsert_overwrites hash0 cfg0 "a"
    { timestamp := 0, wait := 3, stack := "", category := "X" }
    { timestamp := 1, wait := 7, stack := "", category := "X" } rfl).1 (hash0 "a")
  simpa using h

/-- Claim C6: in every reachable state the record map and the stack cache
hold exactly the same key set. -/
theorem c6_records_cache_same_keys (hash : String → Nat) (cfg : MonitorConfig)
    (ops : List MonOp) (k : Nat) :
    ((applyOps hash (NewMonitor cfg) ops).longLocks k).isSome
      = ((applyOps hash (NewMonitor cfg) ops).stackCache k).isSome :=
  syncKeys_applyOps hash ops (NewMonitor cfg) (fun _ => rfl) k

/-- Claim C7: on `Unlock`, when a monitor is attached, it is configured to
not keep records, and the remembered identity is present (non-zero), the
cached stack text is looked up and, when found, `RemoveByStack` is called
with it; the remembered identity is cleared either way; and in every case —
whatever the state — the underlying primitive lock is released. -/
theorem c7_unlock_eviction_protocol (hash : String → Nat)
    (mux : MonitoredMutex) (mon : Monitor) (hmon : mux.monitor = some mon)
    (hkeep : mon.keepRecords = false) (hkey : mux.lockedKey ≠ 0) :
    (MonitoredMutex.Unlock hash mux).lockedKey = 0
    ∧ (MonitoredMutex.Unlock hash mux).monitor
        = some (if (Monitor.GetStack mon mux.lockedKey).2
            then Monitor.RemoveByStack hash mon (Monitor.GetStack mon mux.lockedKey).1
            else mon)
    ∧ (MonitoredMutex.Unlock hash mux).locked = false
    ∧ (∀ mux' : MonitoredMutex, (MonitoredMutex.Unlock hash mux').locked = false) := by
  have hcond : mon.keepRecords = false ∧ mux.lockedKey ≠ 0 := ⟨hkeep, hkey⟩
  have hunlock : MonitoredMutex.Unlock hash mux
      = { mux with
          monitor := some (if (Monitor.GetStack mon mux.lockedKey).2
            then Monitor.RemoveByStack hash mon (Monitor.GetStack mon mux.lockedKey).1
            else mon)
          lockedKey := 0
          locked := false } := by
    simp only [MonitoredMutex.Unlock, hmon]
    rw [if_pos hcond]
  refine ⟨by rw [hunlock], by rw [hunlock], by rw [hunlock], ?_⟩
  intro mux'
  cases hm : mux'.monitor with
  | none => simp [MonitoredMutex.Unlock, hm]
  | some mon2 =>
    simp only [MonitoredMutex.Unlock, hm]
    by_cases hc : mon2.keepRecords = false ∧ mux'.lockedKey ≠ 0
    · rw [if_pos hc]
    · rw [if_neg hc]

/-- Witness for C7 at a concrete input. -/
theorem c7_unlock_eviction_protocol_witness :
    mux1.monitor = some (NewMonitor cfg0)
    ∧ (NewMonitor cfg0).keepRecords = false
    ∧ mux1.lockedKey ≠ 0
    ∧ (MonitoredMutex.Unlock hash0 mux1).lockedKey = 0
    ∧ (MonitoredMutex.Unlock hash0 mux1).locked = false :=
  ⟨rfl, rfl, by decide,
    (c7_unlock_eviction_protocol hash0 mux1 (NewMonitor cfg0) rfl rfl (by decide)).1,
    (c7_unlock_eviction_protocol hash0 mux1 (NewMonitor cfg0) rfl rfl (by decide)).2.2.1⟩

/-- Claim C8: `getStackTrace` starts from a 1024-byte buffer, doubling up to
64 times the baseline (65536 bytes); whenever the current stack fits below
the maximum it is returned untruncated, and otherwise the fixed sentinel
string is returned — the operation is total and never errors. -/
theorem c8_getStackTrace_total (stack : String) :
    (stack.data.length < 65536 → getStackTrace stack = stack)
    ∧ (65536 ≤ stack.data.length → getStackTrace stack = "stack trace too deep") := by
  constructor
  · intro h
    have h10 : (1024 : Nat) = 2 ^ (16 - 6) := by norm_num
    rw [getStackTrace, h10]
    exact stackLoop_fits_chain stack h 6 (by norm_num)
  · intro h
    rw [getStackTrace]
    exact stackLoop_deep stack h 65537 1024 (by norm_num) (by norm_num)

/-- Witness for C8: a short stack is returned verbatim; a 65536-byte stack
degrades to the sentinel. -/
theorem c8_getStackTrace_total_witness :
    ("short".data.length < 65536 ∧ getStackTrace "short" = "short")
    ∧ (65536 ≤ (String.mk (List.replicate 65536 'a')).data.length
        ∧ getStackTrace (String.mk (List.replicate 65536 'a'))
            = "stack trace too deep") := by
  have h1 : "short".data.length < 65536 := by decide
  have h2 : 65536 ≤ (String.mk (List.replicate 65536 'a')).data.length := by
    show 65536 ≤ (List.replicate 65536 'a').length
    rw [List.length_replicate]
  exact ⟨⟨h1, (c8_getStackTrace_total "short").1 h1⟩,
    ⟨h2, (c8_getStackTrace_total (String.mk (List.replicate 65536 'a'))).2 h2⟩⟩

/-- Claim C9: when the captured stack text hashes to `0`, an over-threshold
`Lock` records the event but leaves `lockedKey = 0`, indistinguishable from
the cleared state; the subsequent `Unlock` with `keepRecords = false`
therefore does not evict, and the record stays in the snapshot and the stack
cache. -/
theorem c9_zero_hash_no_eviction (hash : String → Nat)
    (mux : MonitoredMutex) (mon : Monitor) (wait now : Int) (s : String)
    (hmon : mux.monitor = some mon) (hkeep : mon.keepRecords = false)
    (hzero : hash s = 0) (hthr : mux.threshold < wait) :
    (MonitoredMutex.Lock hash mux wait s now).lockedKey = 0
    ∧ (MonitoredMutex.Unlock hash (MonitoredMutex.Lock hash mux wait s now)).monitor
        = some (Monitor.Add hash mon s
            { timestamp := now, wait := wait, stack := s, category := mux.category })
    ∧ Monitor.Snapshot (Monitor.Add hash mon s
          { timestamp := now, wait := wait, stack := s, category := mux.category })
        (hash s)
        = some { timestamp := now, wait := wait, stack := s, category := mux.category }
    ∧ Monitor.GetStack (Monitor.Add hash mon s
          { timestamp := now, wait := wait, stack := s, category := mux.category })
        (hash s)
        = (s, true) := by
  have hlock : MonitoredMutex.Lock hash mux wait s now
      = { mux with
          locked := true
          lockedKey := hash s
          monitor := some (Monitor.Add hash mon s
            { timestamp := now, wait := wait, stack := s, category := mux.category }) } := by
    simp only [MonitoredMutex.Lock, hmon]
    rw [if_pos hthr]
  refine ⟨by rw [hlock, hzero], ?_, ?_, ?_⟩
  · rw [hlock]
    simp only [MonitoredMutex.Unlock]
    rw [if_neg (by simp [hzero])]
  · simp [Monitor.Snapshot, Monitor.Add]
  · simp [Monitor.GetStack, Monitor.Add]

/-- Witness for C9 at a concrete input. -/
theorem c9_zero_hash_no_eviction_witness :
    mux2.monitor = some (NewMonitor cfg0)
    ∧ (NewMonitor cfg0).keepRecords = false
    ∧ hash0 "a" = 0
    ∧ mux2.threshold < 5
    ∧ (MonitoredMutex.Lock hash0 mux2 5 "a" 7).lockedKey = 0
    ∧ Monitor.Snapshot (Monitor.Add hash0 (NewMonitor cfg0) "a"
          { timestamp := 7, wait := 5, stack := "a", category := mux2.category })
        (hash0 "a")
        = some { timestamp := 7, wait := 5, stack := "a", category := mux2.category } :=
  ⟨rfl, rfl, rfl, by decide,
    (c9_zero_hash_no_eviction hash0 mux2 (NewMonitor cfg0) 5 7 "a" rfl rfl rfl (by decide)).1,
    (c9_zero_hash_no_eviction hash0 mux2 (NewMonitor cfg0) 5 7 "a" rfl rfl rfl (by decide)).2.2.1⟩

/-- Claim C10: `New` and the empty-string branch of `SetCategory`
unconditionally dereference the monitor reference, so both panic on a `nil`
monitor, while `Lock` and `Unlock` guard the `nil` case and degrade to the
plain primitive lock protocol. -/
theorem c10_nil_monitor_deref (hash : String → Nat) (t wait now : Int)
    (s : String) :
    New none t = none
    ∧ (∀ mux : MonitoredMutex, mux.monitor = none →
        MonitoredMutex.SetCategory mux "" = none)
    ∧ (∀ mux : MonitoredMutex, mux.monitor = none →
        MonitoredMutex.Lock hash mux wait s now
            = { mux with locked := true, lockedKey := 0 }
        ∧ MonitoredMutex.Unlock hash mux = { mux with locked := false }) := by
  refine ⟨rfl, ?_, ?_⟩
  · intro mux hm
    simp [MonitoredMutex.SetCategory, hm]
  · intro mux hm
    exact ⟨by simp only [MonitoredMutex.Lock, hm], by simp only [MonitoredMutex.Unlock, hm]⟩

/-- Witness for C10 at a concrete input. -/
theorem c10_nil_monitor_deref_witness :
    mux0.monitor = none
    ∧ New none 0 = none
    ∧ MonitoredMutex.SetCategory mux0 "" = none :=
  ⟨rfl, (c10_nil_monitor_deref hash0 0 0 0 "x").1,
    (c10_nil_monitor_deref hash0 0 0 0 "x").2.1 mux0 rfl⟩
